import Mathlib

/-!
# Verification of the fragmented-media download engine (`downloader/fragment.py`)

Shallow embedding of `FragmentFD` from
`plugin.video.tvalacarta/lib/youtube_dl/downloader/fragment.py`.

The file-system effects of the methods `_write_ytdl_file`, `_append_fragment`,
`_prepare_frag_download` and `_finish_frag_download` are embedded as explicit
event traces (`Ev`), so that interruption points (process death between two
effects) become prefixes of the trace, and the state of the resume sidecar
after a trace is computed by folding the events over a `SidecarState`.

The progress hook `frag_progress_hook` installed by `_start_frag_download` is
embedded as a pure function on the pair of the mutable `ctx` dictionary
(`HookCtx`) and the mutable `state` dictionary (`HookState`); byte counts are
rationals, which embed Python integers exactly and make Python 3 true division
(the module has `from __future__ import division`) exact.
-/

namespace FragmentFD

/-- One observable file-system / reporting effect of the downloader.
`sidecarTruncate` is `sanitize_open(ytdl_filename, 'w')` (creates or truncates
the sidecar), `sidecarWrite idx` the `json.dumps` write of
`{"download": {"current_fragment_index": idx}}`, `outputWrite n` a
`dest_stream.write` of `n` bytes of fragment content, `fragRemove i` the
`os.remove` of the per-fragment temporary file `<tmpfilename>-Frag<i>`,
`outputRename` the `try_rename(tmpfilename, filename)`, and
`progressEv d t fin` a `_hook_progress` call reporting `downloaded_bytes = d`,
`total_bytes = t` and whether the status is `finished`. -/
inductive Ev where
  | sidecarTruncate
  | sidecarWrite (idx : Nat)
  | sidecarClose
  | sidecarRemove
  | outputOpen (appendMode : Bool)
  | outputWrite (bytes : Nat)
  | outputClose
  | outputRename
  | fragRemove (fragFile : Nat)
  | progressEv (downloaded : Nat) (total : Option Nat) (statusFinished : Bool)
deriving DecidableEq, Repr

/-- On-disk state of the resume sidecar (`<filename>.ytdl`): absent, present
but not parseable by `json.loads` (e.g. truncated or partially written), or a
parseable checkpoint `{"download": {"current_fragment_index": idx}}`. -/
inductive SidecarState where
  | absent
  | corrupt
  | checkpoint (idx : Nat)
deriving DecidableEq, Repr

/-- Effect of one event on the sidecar file.  Truncation leaves an empty file,
which `json.loads` cannot parse, hence `corrupt`. -/
def sidecarStep (st : SidecarState) : Ev → SidecarState
  | Ev.sidecarTruncate => SidecarState.corrupt
  | Ev.sidecarWrite idx => SidecarState.checkpoint idx
  | Ev.sidecarRemove => SidecarState.absent
  | _ => st

/-- Sidecar state after running a trace of events. -/
def sidecarAfter (st : SidecarState) (evs : List Ev) : SidecarState :=
  evs.foldl sidecarStep st

/-- `FragmentFD._write_ytdl_file` (fragment.py lines 57-64): opens the sidecar
itself with mode `'w'` (truncating it in place), writes the JSON checkpoint,
and closes the stream.  No separate temporary location, fsync or rename is
involved. -/
def write_ytdl_file (idx : Nat) : List Ev :=
  [Ev.sidecarTruncate, Ev.sidecarWrite idx, Ev.sidecarClose]

/-- Fields of the `ctx` dictionary consulted by `_append_fragment`:
`ctx.get('live')`, whether `ctx['tmpfilename'] == '-'` (stdout output), the
current checkpoint index `ctx['fragment_index']` (already advanced past the
fragment being appended by the progress hook that fired when its transport
download finished), and the number identifying
`ctx['fragment_filename_sanitized']`. -/
structure AppendCtx where
  live : Bool
  stdout_output : Bool
  fragment_index : Nat
  frag_file : Nat
deriving DecidableEq, Repr

/-- `FragmentFD._append_fragment` (fragment.py lines 80-88).
`writeOk` tells whether `ctx['dest_stream'].write(frag_content)` succeeds; an
`outputWrite` event is emitted only when the bytes are durably written.  The
`finally:` block runs in either case: it persists the checkpoint (unless the
session is live or the output is stdout) and removes the per-fragment
temporary file (unless `keep_fragments` is configured).  The returned Bool is
`true` iff the method completes without an exception. -/
def append_fragment (keep_fragments writeOk : Bool) (ctx : AppendCtx) (fragSize : Nat) :
    List Ev × Bool :=
  ((if writeOk then [Ev.outputWrite fragSize] else []) ++
    (if ctx.live ∨ ctx.stdout_output then [] else write_ytdl_file ctx.fragment_index) ++
    (if keep_fragments then [] else [Ev.fragRemove ctx.frag_file]),
   writeOk)

/-- Errors that abort `_prepare_frag_download`: `json.loads` raising on an
unreadable sidecar (`_read_ytdl_file`, lines 52-55), and the `assert`
statements on lines 124-127 relating the checkpoint to the resume length. -/
inductive InitError where
  | corruptCheckpoint
  | resumeStateMismatch
deriving DecidableEq, Repr

/-- The checkpoint-loading step of `_prepare_frag_download`
(fragment.py lines 118-122): `ctx['fragment_index'] = 0`; if the sidecar file
exists, `_read_ytdl_file` parses it (raising on a corrupt file); otherwise
`_write_ytdl_file` creates a fresh sidecar holding index 0.  Returns the
loaded index and the trace of sidecar effects. -/
def load_checkpoint : SidecarState → Except InitError (Nat × List Ev)
  | SidecarState.absent => Except.ok (0, write_ytdl_file 0)
  | SidecarState.corrupt => Except.error InitError.corruptCheckpoint
  | SidecarState.checkpoint n => Except.ok (n, [])

/-- `FragmentFD._prepare_frag_download` (fragment.py lines 90-137), restricted
to its resume logic.  `live` only selects the `to_screen` banner text in the
source and affects nothing modelled here; it is kept as a parameter to state
that the behaviour is independent of it.  `tmpExists`/`tmpSize` describe the
temp output file: `resume_len` is its size when it exists, else 0, and the
output is opened in append mode exactly when it exists.  After loading the
checkpoint the source asserts `resume_len > 0` when `fragment_index > 0` and
`resume_len == 0` otherwise; a failed assertion aborts the method
(`resumeStateMismatch`).  On success the result carries
`(fragment_index, resume_len)`; `resume_len` also initialises
`ctx['complete_frags_downloaded_bytes']`.  The first component is the trace
of effects performed before returning or aborting. -/
def prepare_frag_download (live : Bool) (sidecar : SidecarState)
    (tmpExists : Bool) (tmpSize : Nat) : List Ev × Except InitError (Nat × Nat) :=
  let resume_len := if tmpExists then tmpSize else 0
  match load_checkpoint sidecar with
  | Except.error e => ([], Except.error e)
  | Except.ok (fi, evs) =>
      if fi > 0 then
        if resume_len > 0 then
          (evs ++ [Ev.outputOpen tmpExists], Except.ok (fi, resume_len))
        else (evs, Except.error InitError.resumeStateMismatch)
      else
        if resume_len = 0 then
          (evs ++ [Ev.outputOpen tmpExists], Except.ok (fi, resume_len))
        else (evs, Except.error InitError.resumeStateMismatch)

/-- `FragmentFD._finish_frag_download` (fragment.py lines 195-210): closes the
output stream, removes the sidecar if it exists on disk, renames the temp
output to the final filename, and reports one `finished` progress snapshot
whose `downloaded_bytes` and `total_bytes` are both the final file size
(`fsize = os.path.getsize(filename)` after the rename). -/
def finish_frag_download (sidecarExists : Bool) (fsize : Nat) : List Ev :=
  [Ev.outputClose] ++
    (if sidecarExists then [Ev.sidecarRemove] else []) ++
    [Ev.outputRename, Ev.progressEv fsize (some fsize) true]

/-- Number of `outputWrite` events in a trace: how many fragments' bytes have
been durably written to the output stream. -/
def outputWriteCount (evs : List Ev) : Nat :=
  evs.countP (fun e => match e with | Ev.outputWrite _ => true | _ => false)

/-- Number of progress snapshots reported in a trace. -/
def progress_count (evs : List Ev) : Nat :=
  evs.countP (fun e => match e with | Ev.progressEv _ _ _ => true | _ => false)

/-- Status of a low-level progress event delivered to `frag_progress_hook`
by the transport downloader (`s['status']`): the hook returns immediately
unless it is `'downloading'` or `'finished'`. -/
inductive EvStatus where
  | downloading
  | finished
  | other
deriving DecidableEq, Repr

/-- One low-level progress event `s` from the transport: its status, the
bytes downloaded so far for the current fragment (`s['downloaded_bytes']`,
read only in the `'downloading'` branch), the fragment's total size
(`s.get('total_bytes')`) and the transport speed (`s.get('speed')`). -/
structure ProgressEvent where
  status : EvStatus
  downloaded_bytes : ℚ
  total_bytes : Option ℚ
  speed : Option ℚ
deriving DecidableEq, Repr

/-- The fields of the mutable `ctx` dictionary touched by the progress hook:
`ctx['live']`, `ctx['complete_frags_downloaded_bytes']`,
`ctx['fragment_index']`, `ctx['prev_frag_downloaded_bytes']` and
`ctx.get('speed')`. -/
structure HookCtx where
  live : Bool
  complete_frags_downloaded_bytes : ℚ
  fragment_index : Nat
  prev_frag_downloaded_bytes : ℚ
  speed : Option ℚ
deriving DecidableEq, Repr

/-- The mutable `state` dictionary built by `_start_frag_download`
(fragment.py lines 143-150) and updated by the hook; `_hook_progress(state)`
reports a copy of its current value.  `none` models a key not present in the
dictionary. -/
structure HookState where
  status : String
  downloaded_bytes : ℚ
  fragment_index : Nat
  fragment_count : Option Nat
  filename : String
  tmpfilename : String
  elapsed : Option ℚ
  total_bytes_estimate : Option ℚ
  eta : Option ℚ
  speed : Option ℚ
deriving DecidableEq, Repr

/-- The initial `state` dictionary of `_start_frag_download` (lines 143-150):
status `'downloading'`, `downloaded_bytes` initialised from
`ctx['complete_frags_downloaded_bytes']`, the resumed fragment index and the
total fragment count; `elapsed`, `total_bytes_estimate`, `eta` and `speed`
keys absent. -/
def start_frag_download_state (filename tmpfilename : String) (complete : ℚ)
    (fragment_index : Nat) (total_frags : Option Nat) : HookState :=
  { status := "downloading"
    downloaded_bytes := complete
    fragment_index := fragment_index
    fragment_count := total_frags
    filename := filename
    tmpfilename := tmpfilename
    elapsed := none
    total_bytes_estimate := none
    eta := none
    speed := none }

/-- Python's falsy-chaining `a or b` on optional numbers: `None` and `0` fall
through to `b` (used for `s.get('total_bytes') or 0` and
`s.get('speed') or ctx.get('speed')`). -/
def pyOr (a b : Option ℚ) : Option ℚ :=
  match a with
  | none => b
  | some x => if x = 0 then b else some x

/-- Modelled from the spec: `calc_eta` is defined in `downloader/common.py`,
which is not part of this repository snapshot.  Spec §4.4: the ETA is
`(estimatedTotalBytes - downloadedBytes) / speed`, undefined (not reported)
when the speed is zero or unknown; the call site passes the session start
time, the current time, the estimated total and the downloaded bytes, the
implied speed being `downloaded / elapsed`. -/
def calc_eta (start now total current : ℚ) : Option ℚ :=
  let dif := now - start
  if current = 0 ∨ dif ≤ 0 then none
  else some ((total - current) / (current / dif))

/-- The closure `frag_progress_hook` installed by `_start_frag_download`
(fragment.py lines 160-189), as a pure step function.  `total_frags` is the
captured `ctx['total_frags']`, `start` the captured session start time, `now`
the value of `time.time()` at this invocation.  Returns the updated
`(ctx, state)` pair and the snapshot passed to `_hook_progress`, if any. -/
def frag_progress_hook (total_frags start now : ℚ) (cs : HookCtx × HookState)
    (s : ProgressEvent) : (HookCtx × HookState) × Option HookState :=
  if s.status = EvStatus.other then (cs, none) else
  let ctx := cs.1
  let state := cs.2
  let state1 : HookState := { state with elapsed := some (now - start) }
  let frag_total_bytes : ℚ := (pyOr s.total_bytes (some 0)).getD 0
  let estimated_size : ℚ :=
    (ctx.complete_frags_downloaded_bytes + frag_total_bytes) /
      ((state1.fragment_index : ℚ) + 1) * total_frags
  let state2 : HookState :=
    if ctx.live then state1
    else { state1 with total_bytes_estimate := some estimated_size }
  if s.status = EvStatus.finished then
    let state3 : HookState :=
      { state2 with
          fragment_index := state2.fragment_index + 1
          downloaded_bytes :=
            state2.downloaded_bytes + frag_total_bytes - ctx.prev_frag_downloaded_bytes }
    let ctx2 : HookCtx :=
      { ctx with
          fragment_index := state3.fragment_index
          complete_frags_downloaded_bytes := state3.downloaded_bytes
          prev_frag_downloaded_bytes := 0 }
    ((ctx2, state3), some state3)
  else
    let frag_downloaded_bytes := s.downloaded_bytes
    let state3 : HookState :=
      { state2 with
          downloaded_bytes :=
            state2.downloaded_bytes + frag_downloaded_bytes - ctx.prev_frag_downloaded_bytes }
    let state4 : HookState :=
      if ctx.live then state3
      else { state3 with eta := calc_eta start now estimated_size state3.downloaded_bytes }
    let newSpeed := pyOr s.speed ctx.speed
    let state5 : HookState := { state4 with speed := newSpeed }
    let ctx2 : HookCtx :=
      { ctx with speed := newSpeed, prev_frag_downloaded_bytes := frag_downloaded_bytes }
    ((ctx2, state5), some state5)

/-- Fold of `frag_progress_hook` over a sequence of timed events, collecting
the reported snapshots in order. -/
def run_frag_hooks (total_frags start : ℚ) :
    HookCtx × HookState → List (ℚ × ProgressEvent) →
    (HookCtx × HookState) × List HookState
  | cs, [] => (cs, [])
  | cs, e :: rest =>
      let r := frag_progress_hook total_frags start e.1 cs e.2
      let rr := run_frag_hooks total_frags start r.1 rest
      (rr.1, (match r.2 with | none => [] | some st => [st]) ++ rr.2)

/-- The durability property claimed for appending: at every interruption point
(every prefix `evs.take k` of the trace), any persisted checkpoint index is at
most the number of fragments durably written — `prior` fragments appended
before this trace plus the `outputWrite` events inside the prefix. -/
def checkpoint_never_ahead (prior : Nat) (evs : List Ev) : Prop :=
  ∀ (k idx : Nat), Ev.sidecarWrite idx ∈ evs.take k →
    idx ≤ prior + outputWriteCount (evs.take k)

/-- Atomic-replace semantics of a checkpoint save: a crash at any interruption
point leaves on disk either the old sidecar state or the completed new
checkpoint, never anything else. -/
def atomic_save (old : SidecarState) (idx : Nat) (evs : List Ev) : Prop :=
  ∀ k : Nat, sidecarAfter old (evs.take k) = old ∨
    sidecarAfter old (evs.take k) = SidecarState.checkpoint idx

/-- The finalization ordering claimed by the spec: at every interruption point
of the trace, if the sidecar has been removed then the output has already been
renamed into place. -/
def removed_after_rename (evs : List Ev) : Prop :=
  ∀ k : Nat, Ev.sidecarRemove ∈ evs.take k → Ev.outputRename ∈ evs.take k

/-- The index loaded by the checkpoint step for a non-corrupt sidecar: the
recorded index when the sidecar parses, `0` for a fresh download. -/
def loaded_index : SidecarState → Nat
  | SidecarState.absent => 0
  | SidecarState.corrupt => 0
  | SidecarState.checkpoint n => n

/-! ## Helper lemmas -/

lemma sidecarAfter_cons (st : SidecarState) (e : Ev) (rest : List Ev) :
    sidecarAfter st (e :: rest) = sidecarAfter (sidecarStep st e) rest := rfl

lemma sidecarStep_ne_absent (st : SidecarState) (e : Ev)
    (hst : st ≠ SidecarState.absent) (he : e ≠ Ev.sidecarRemove) :
    sidecarStep st e ≠ SidecarState.absent := by
  cases e <;> simp [sidecarStep] <;> first | exact hst | exact absurd rfl he

lemma sidecarAfter_ne_absent (evs : List Ev) :
    ∀ st : SidecarState, Ev.sidecarRemove ∉ evs → st ≠ SidecarState.absent →
      sidecarAfter st evs ≠ SidecarState.absent := by
  induction evs with
  | nil => intro st _ hst; exact hst
  | cons e rest ih =>
      intro st hmem hst
      have h1 : Ev.sidecarRemove ∉ rest := fun hr => hmem (List.mem_cons_of_mem _ hr)
      have h2 : e ≠ Ev.sidecarRemove := fun he => hmem (he ▸ List.mem_cons_self _ _)
      rw [sidecarAfter_cons]
      exact ih _ h1 (sidecarStep_ne_absent st e hst h2)

/-! ## Claims -/

/-- C2 (counterexample): `_write_ytdl_file` does not overwrite the sidecar
atomically.  Starting from a sidecar holding checkpoint 3, interrupting the
save of checkpoint 5 right after its first effect (the truncating open) leaves
the sidecar corrupt — neither the old nor the new checkpoint — so the
claimed write-to-separate-location-then-replace ordering (whose observable
guarantee is exactly old-or-new at every interruption point) does not hold. -/
theorem c2_atomic_save_cex :
    ¬ atomic_save (SidecarState.checkpoint 3) 5 (write_ytdl_file 5) := by
  intro h
  exact absurd (h 1) (by decide)

/-- C2 (amended): `_write_ytdl_file` overwrites the sidecar in place — it
truncates the sidecar itself, writes the new checkpoint and closes, with no
separate temporary location, fsync or rename — so a crash mid-save can leave
an unparseable sidecar; it can however never leave a parseable checkpoint
other than the previous content or the new index. -/
theorem c2_save_overwrites_in_place (old : SidecarState) (idx k : Nat) :
    write_ytdl_file idx = [Ev.sidecarTruncate, Ev.sidecarWrite idx, Ev.sidecarClose] ∧
    (sidecarAfter old ((write_ytdl_file idx).take k) = old ∨
     sidecarAfter old ((write_ytdl_file idx).take k) = SidecarState.corrupt ∨
     sidecarAfter old ((write_ytdl_file idx).take k) = SidecarState.checkpoint idx) := by
  refine ⟨rfl, ?_⟩
  match k with
  | 0 => exact Or.inl rfl
  | 1 => exact Or.inr (Or.inl rfl)
  | 2 => exact Or.inr (Or.inr rfl)
  | (n + 3) =>
      refine Or.inr (Or.inr ?_)
      simp [write_ytdl_file, sidecarAfter, sidecarStep, List.take_succ_cons]

/-- C6: `_finish_frag_download` closes the output stream, renames the temp
file to the final filename, removes the resume sidecar (leaving it absent
whatever its prior state), and reports exactly one snapshot, which is the
last effect and carries status `finished` with `downloaded_bytes` and
`total_bytes` both equal to the final file size — concretely, a 500-byte
output (five 100-byte fragments) yields the trace ending in
`progressEv 500 (some 500) true`. -/
theorem c6_finalize_trace (fsize : Nat) :
    Ev.outputClose ∈ finish_frag_download true fsize ∧
    Ev.outputRename ∈ finish_frag_download true fsize ∧
    Ev.sidecarRemove ∈ finish_frag_download true fsize ∧
    (∀ st : SidecarState,
      sidecarAfter st (finish_frag_download true fsize) = SidecarState.absent) ∧
    progress_count (finish_frag_download true fsize) = 1 ∧
    (finish_frag_download true fsize).getLast?
      = some (Ev.progressEv fsize (some fsize) true) ∧
    finish_frag_download true 500
      = [Ev.outputClose, Ev.sidecarRemove, Ev.outputRename,
         Ev.progressEv 500 (some 500) true] := by
  refine ⟨?_, ?_, ?_, fun st => rfl, rfl, rfl, rfl⟩ <;> simp [finish_frag_download]

/-- C7 (counterexample): in `_finish_frag_download` the resume sidecar is
removed *before* the temp file is renamed to the final path: interrupting the
finalization trace after its second effect shows a prefix containing the
sidecar removal but not the rename, refuting the claimed
rename-before-removal ordering. -/
theorem c7_removed_after_rename_cex :
    ¬ removed_after_rename (finish_frag_download true 500) := by
  intro h
  exact absurd (h 2 (by decide)) (by decide)

/-- C7 (amended): during finalization the sidecar removal precedes the
rename — at every interruption point, if the rename has happened the removal
has already happened — and there is an interruption point at which the
sidecar is already gone while the output has not yet been renamed into place,
i.e. neither a sidecar nor a finalized output exists. -/
theorem c7_removal_precedes_rename (fsize : Nat) (st : SidecarState) :
    (∀ k : Nat, Ev.outputRename ∈ (finish_frag_download true fsize).take k →
      Ev.sidecarRemove ∈ (finish_frag_download true fsize).take k) ∧
    (∃ k : Nat,
      sidecarAfter st ((finish_frag_download true fsize).take k) = SidecarState.absent ∧
      Ev.outputRename ∉ (finish_frag_download true fsize).take k) := by
  constructor
  · intro k hk
    match k with
    | 0 => simp at hk
    | 1 => simp [finish_frag_download, List.take_succ_cons] at hk
    | 2 => simp [finish_frag_download, List.take_succ_cons] at hk
    | (n + 3) => simp [finish_frag_download, List.take_succ_cons]
  · refine ⟨2, rfl, ?_⟩
    simp [finish_frag_download, List.take_succ_cons]

/-- C9: the checkpoint-loading step of `_prepare_frag_download` treats an
absent sidecar as a fresh download — it succeeds with fragment index 0 (and
writes a fresh sidecar) — while a sidecar that exists but cannot be parsed
aborts the whole preparation with `corruptCheckpoint` (the `json.loads`
exception propagates out of `_read_ytdl_file`), never silently restarting
from zero; an absent sidecar can only lead to success or to the separate
`resumeStateMismatch` assertion, never to `corruptCheckpoint`. -/
theorem c9_absent_fresh_corrupt_fatal :
    load_checkpoint SidecarState.absent = Except.ok (0, write_ytdl_file 0) ∧
    load_checkpoint SidecarState.corrupt = Except.error InitError.corruptCheckpoint ∧
    (∀ (live tmpExists : Bool) (tmpSize : Nat),
      prepare_frag_download live SidecarState.corrupt tmpExists tmpSize
        = ([], Except.error InitError.corruptCheckpoint) ∧
      (prepare_frag_download live SidecarState.absent tmpExists tmpSize).2
        = (if (if tmpExists then tmpSize else 0) = 0 then Except.ok (0, 0)
           else Except.error InitError.resumeStateMismatch)) := by
  refine ⟨rfl, rfl, fun live te ts => ⟨rfl, ?_⟩⟩
  by_cases h : (if te then ts else 0) = 0 <;>
    simp [prepare_frag_download, load_checkpoint, h]

/-- C3: after loading the checkpoint (non-corrupt sidecar) and establishing
the resume length from the existing temp output file, `_prepare_frag_download`
proceeds if and only if `(fragment_index > 0 ∧ resume_len > 0) ∨
(fragment_index = 0 ∧ resume_len = 0)`, and whenever that invariant is
violated it aborts with the fatal `resumeStateMismatch` assertion failure. -/
theorem c3_resume_invariant_enforced (live : Bool) (sc : SidecarState)
    (tmpExists : Bool) (tmpSize : Nat) (hsc : sc ≠ SidecarState.corrupt) :
    ((∃ r, (prepare_frag_download live sc tmpExists tmpSize).2 = Except.ok r) ↔
      ((loaded_index sc > 0 ∧ (if tmpExists then tmpSize else 0) > 0) ∨
       (loaded_index sc = 0 ∧ (if tmpExists then tmpSize else 0) = 0))) ∧
    (¬ ((loaded_index sc > 0 ∧ (if tmpExists then tmpSize else 0) > 0) ∨
        (loaded_index sc = 0 ∧ (if tmpExists then tmpSize else 0) = 0)) →
      (prepare_frag_download live sc tmpExists tmpSize).2
        = Except.error InitError.resumeStateMismatch) := by
  cases sc with
  | corrupt => exact absurd rfl hsc
  | absent =>
      by_cases h : (if tmpExists then tmpSize else 0) = 0 <;>
        simp [prepare_frag_download, load_checkpoint, loaded_index, h]
  | checkpoint n =>
      cases n with
      | zero =>
          by_cases h : (if tmpExists then tmpSize else 0) = 0 <;>
            simp [prepare_frag_download, load_checkpoint, loaded_index, h]
      | succ m =>
          by_cases h : (if tmpExists then tmpSize else 0) > 0 <;>
            simp [prepare_frag_download, load_checkpoint, loaded_index, h]

/-- C3 (witness): a resumed session with checkpoint index 2 and a 500-byte
temp output file satisfies the invariant and proceeds. -/
theorem c3_resume_invariant_enforced_witness :
    (SidecarState.checkpoint 2 ≠ SidecarState.corrupt) ∧
    (((∃ r, (prepare_frag_download false (SidecarState.checkpoint 2) true 500).2
          = Except.ok r) ↔
        ((loaded_index (SidecarState.checkpoint 2) > 0 ∧ (if true then 500 else 0) > 0) ∨
         (loaded_index (SidecarState.checkpoint 2) = 0 ∧ (if true then 500 else 0) = 0))) ∧
     (¬ ((loaded_index (SidecarState.checkpoint 2) > 0 ∧ (if true then 500 else 0) > 0) ∨
         (loaded_index (SidecarState.checkpoint 2) = 0 ∧ (if true then 500 else 0) = 0)) →
       (prepare_frag_download false (SidecarState.checkpoint 2) true 500).2
         = Except.error InitError.resumeStateMismatch)) :=
  ⟨by decide,
   c3_resume_invariant_enforced false (SidecarState.checkpoint 2) true 500 (by decide)⟩

/-- C10: when no resume sidecar exists, a successful `_prepare_frag_download`
writes a fresh sidecar holding index 0 as its very first effects — before
opening the output and hence before any fragment is fetched, and for every
value of the live flag (the source consults `ctx['live']` only for a log
message there) — leaving the sidecar present on disk; moreover
`_append_fragment` never removes the sidecar, and no trace free of
`sidecarRemove` (which only `_finish_frag_download` emits) can take a present
sidecar back to absent, so from the end of Init until finalization a sidecar
always exists. -/
theorem c10_fresh_sidecar_created (live tmpExists : Bool) (tmpSize : Nat)
    (hok : ∃ r, (prepare_frag_download live SidecarState.absent tmpExists tmpSize).2
      = Except.ok r) :
    (prepare_frag_download live SidecarState.absent tmpExists tmpSize).1
      = write_ytdl_file 0 ++ [Ev.outputOpen tmpExists] ∧
    sidecarAfter SidecarState.absent
        (prepare_frag_download live SidecarState.absent tmpExists tmpSize).1
      = SidecarState.checkpoint 0 ∧
    (∀ (keep writeOk : Bool) (ctx : AppendCtx) (sz : Nat),
      Ev.sidecarRemove ∉ (append_fragment keep writeOk ctx sz).1) ∧
    (∀ (st : SidecarState) (evs : List Ev), Ev.sidecarRemove ∉ evs →
      st ≠ SidecarState.absent → sidecarAfter st evs ≠ SidecarState.absent) := by
  obtain ⟨r, hr⟩ := hok
  have h0 : (if tmpExists then tmpSize else 0) = 0 := by
    by_contra h
    simp [prepare_frag_download, load_checkpoint, h] at hr
  refine ⟨?_, ?_, ?_, fun st evs h1 h2 => sidecarAfter_ne_absent evs st h1 h2⟩
  · simp [prepare_frag_download, load_checkpoint, h0]
  · simp [prepare_frag_download, load_checkpoint, h0, write_ytdl_file,
      sidecarAfter, sidecarStep]
  · intro keep writeOk ctx sz
    cases keep <;> cases writeOk <;>
      by_cases hl : ctx.live ∨ ctx.stdout_output <;>
        simp [append_fragment, hl, write_ytdl_file]

/-- C10 (witness): a brand-new session (no sidecar, no partial output)
prepares successfully and the sidecar-creation guarantees hold. -/
theorem c10_fresh_sidecar_created_witness :
    (∃ r, (prepare_frag_download false SidecarState.absent false 0).2 = Except.ok r) ∧
    ((prepare_frag_download false SidecarState.absent false 0).1
        = write_ytdl_file 0 ++ [Ev.outputOpen false] ∧
     sidecarAfter SidecarState.absent
         (prepare_frag_download false SidecarState.absent false 0).1
       = SidecarState.checkpoint 0 ∧
     (∀ (keep writeOk : Bool) (ctx : AppendCtx) (sz : Nat),
       Ev.sidecarRemove ∉ (append_fragment keep writeOk ctx sz).1) ∧
     (∀ (st : SidecarState) (evs : List Ev), Ev.sidecarRemove ∉ evs →
       st ≠ SidecarState.absent → sidecarAfter st evs ≠ SidecarState.absent)) :=
  ⟨⟨(0, 0), rfl⟩, c10_fresh_sidecar_created false false 0 ⟨(0, 0), rfl⟩⟩

lemma checkpoint_never_ahead_write_cons (prior sz : Nat) (rest : List Ev)
    (h : ∀ idx : Nat, Ev.sidecarWrite idx ∈ rest → idx ≤ prior + 1) :
    checkpoint_never_ahead prior (Ev.outputWrite sz :: rest) := by
  intro k idx hmem
  cases k with
  | zero => simp at hmem
  | succ k =>
      rw [List.take_succ_cons] at hmem
      rcases List.mem_cons.mp hmem with h1 | h1
      · simp at h1
      · have hle := h idx (List.take_subset k rest h1)
        have hcount : outputWriteCount (List.take (k + 1) (Ev.outputWrite sz :: rest))
            = outputWriteCount (List.take k rest) + 1 := by
          rw [List.take_succ_cons]
          simp [outputWriteCount, List.countP_cons]
        omega

/-- C1 (counterexample): when the output write raises, the `finally:` block of
`_append_fragment` still persists the checkpoint.  Appending fragment 0 of a
non-live, file-backed session (so `ctx['fragment_index'] = 1` after the
transport's finished event) with a failing `dest_stream.write` produces a
trace whose persisted checkpoint index 1 exceeds the 0 fragments durably
written — refuting the claim for the write-error case. -/
theorem c1_append_checkpoint_order_cex :
    (AppendCtx.mk false false 1 0).fragment_index = 0 + 1 ∧
    ¬ checkpoint_never_ahead 0
        (append_fragment false false (AppendCtx.mk false false 1 0) 100).1 := by
  refine ⟨rfl, fun h => ?_⟩
  exact absurd (h 4 1 (by decide)) (by decide)

/-- C1 (amended): for a non-live, file-backed session appending fragment
`prior` (its checkpoint index already advanced to `prior + 1`): when the
output write succeeds, `_append_fragment` performs its effects in exactly the
order write-bytes, persist-checkpoint, delete-fragment-temp-file (the
deletion skipped under `keep_fragments`), and no interruption point of that
trace leaves a persisted checkpoint index greater than the number of
fragments durably written; but when the write itself raises, the `finally:`
block still persists checkpoint `prior + 1` while no bytes were written, so
the persisted index exceeds the durably-written fragment count by one. -/
theorem c1_append_checkpoint_order (keep : Bool) (ctx : AppendCtx) (sz prior : Nat)
    (hlive : ctx.live = false) (hstd : ctx.stdout_output = false)
    (hidx : ctx.fragment_index = prior + 1) :
    ((append_fragment keep true ctx sz).1
      = Ev.outputWrite sz ::
          (write_ytdl_file (prior + 1) ++
            (if keep then [] else [Ev.fragRemove ctx.frag_file]))) ∧
    checkpoint_never_ahead prior (append_fragment keep true ctx sz).1 ∧
    ((append_fragment keep false ctx sz).1
      = write_ytdl_file (prior + 1) ++
          (if keep then [] else [Ev.fragRemove ctx.frag_file])) ∧
    Ev.sidecarWrite (prior + 1) ∈ (append_fragment keep false ctx sz).1 ∧
    outputWriteCount (append_fragment keep false ctx sz).1 = 0 := by
  have hl : ¬ (ctx.live ∨ ctx.stdout_output) := by simp [hlive, hstd]
  have heq : (append_fragment keep true ctx sz).1
      = Ev.outputWrite sz ::
          (write_ytdl_file (prior + 1) ++
            (if keep then [] else [Ev.fragRemove ctx.frag_file])) := by
    simp [append_fragment, hl, hidx]
  refine ⟨heq, ?_, ?_, ?_, ?_⟩
  · rw [heq]
    apply checkpoint_never_ahead_write_cons
    intro idx hmem
    cases keep <;> simp [write_ytdl_file] at hmem <;> omega
  · simp [append_fragment, hl, hidx]
  · cases keep <;> simp [append_fragment, hl, hidx, write_ytdl_file]
  · cases keep <;> simp [append_fragment, hl, write_ytdl_file, outputWriteCount]

/-- C1 (witness): appending fragment 0 (100 bytes, checkpoint index already
1) of a non-live file-backed session without `keep_fragments`. -/
theorem c1_append_checkpoint_order_witness :
    (AppendCtx.mk false false 1 0).live = false ∧
    (AppendCtx.mk false false 1 0).stdout_output = false ∧
    (AppendCtx.mk false false 1 0).fragment_index = 0 + 1 ∧
    (((append_fragment false true (AppendCtx.mk false false 1 0) 100).1
       = Ev.outputWrite 100 ::
           (write_ytdl_file (0 + 1) ++
             (if false then [] else [Ev.fragRemove (AppendCtx.mk false false 1 0).frag_file]))) ∧
     checkpoint_never_ahead 0 (append_fragment false true (AppendCtx.mk false false 1 0) 100).1 ∧
     ((append_fragment false false (AppendCtx.mk false false 1 0) 100).1
       = write_ytdl_file (0 + 1) ++
           (if false then [] else [Ev.fragRemove (AppendCtx.mk false false 1 0).frag_file])) ∧
     Ev.sidecarWrite (0 + 1) ∈ (append_fragment false false (AppendCtx.mk false false 1 0) 100).1 ∧
     outputWriteCount (append_fragment false false (AppendCtx.mk false false 1 0) 100).1 = 0) :=
  ⟨rfl, rfl, rfl,
   c1_append_checkpoint_order false (AppendCtx.mk false false 1 0) 100 0 rfl rfl rfl⟩

/-- C8 (counterexample): a live session's successful append persists no
checkpoint at all — `_append_fragment` completes (returns without exception)
yet its trace contains no sidecar write — refuting the claim that the sidecar
is rewritten after every appended fragment for live sessions as well. -/
theorem c8_sidecar_rewrite_cex :
    (append_fragment false true (AppendCtx.mk true false 3 2) 100).2 = true ∧
    ∀ idx : Nat,
      Ev.sidecarWrite idx ∉ (append_fragment false true (AppendCtx.mk true false 3 2) 100).1 := by
  refine ⟨rfl, fun idx h => ?_⟩
  simp [append_fragment] at h

/-- C8 (amended): after a successful append the resume sidecar is rewritten
with the current fragment index exactly for non-live sessions whose output is
not stdout; for a live session, or when the output goes to stdout, the
checkpoint write is skipped entirely. -/
theorem c8_sidecar_rewrite_scope (keep : Bool) (ctx : AppendCtx) (sz : Nat) :
    (ctx.live = false → ctx.stdout_output = false →
      Ev.sidecarWrite ctx.fragment_index ∈ (append_fragment keep true ctx sz).1) ∧
    ((ctx.live = true ∨ ctx.stdout_output = true) →
      ∀ idx : Nat, Ev.sidecarWrite idx ∉ (append_fragment keep true ctx sz).1) := by
  constructor
  · intro h1 h2
    have hl : ¬ (ctx.live ∨ ctx.stdout_output) := by simp [h1, h2]
    cases keep <;> simp [append_fragment, hl, write_ytdl_file]
  · intro h idx hmem
    have hl : (ctx.live ∨ ctx.stdout_output) := by
      rcases h with h | h
      · exact Or.inl (by simp [h])
      · exact Or.inr (by simp [h])
    cases keep <;> simp [append_fragment, hl] at hmem

lemma pyOr_some_zero_getD (a : Option ℚ) : (pyOr a (some 0)).getD 0 = a.getD 0 := by
  cases a with
  | none => rfl
  | some x => by_cases hx : x = 0 <;> simp [pyOr, hx]

lemma run_frag_hooks_cons (total_frags start : ℚ) (cs : HookCtx × HookState)
    (e : ℚ × ProgressEvent) (rest : List (ℚ × ProgressEvent)) :
    run_frag_hooks total_frags start cs (e :: rest)
      = ((run_frag_hooks total_frags start
            (frag_progress_hook total_frags start e.1 cs e.2).1 rest).1,
         (match (frag_progress_hook total_frags start e.1 cs e.2).2 with
          | none => [] | some st => [st]) ++
           (run_frag_hooks total_frags start
             (frag_progress_hook total_frags start e.1 cs e.2).1 rest).2) := rfl

lemma frag_progress_hook_emits (total_frags start now : ℚ) (ctx : HookCtx)
    (state : HookState) (s : ProgressEvent) (hs : s.status ≠ EvStatus.other) :
    (frag_progress_hook total_frags start now (ctx, state) s).2
      = some (frag_progress_hook total_frags start now (ctx, state) s).1.2 := by
  cases hst : s.status with
  | other => exact absurd hst hs
  | downloading => simp [frag_progress_hook, hst]
  | finished => simp [frag_progress_hook, hst]

lemma frag_progress_hook_live (total_frags start now : ℚ) (ctx : HookCtx)
    (state : HookState) (s : ProgressEvent) (hl : ctx.live = true) :
    (frag_progress_hook total_frags start now (ctx, state) s).1.1.live = true ∧
    (frag_progress_hook total_frags start now (ctx, state) s).1.2.total_bytes_estimate
      = state.total_bytes_estimate := by
  cases hst : s.status with
  | other => simp [frag_progress_hook, hst, hl]
  | downloading => simp [frag_progress_hook, hst, hl]
  | finished => simp [frag_progress_hook, hst, hl]

lemma run_frag_hooks_live (total_frags start : ℚ) (evs : List (ℚ × ProgressEvent)) :
    ∀ (ctx : HookCtx) (state : HookState), ctx.live = true →
      (run_frag_hooks total_frags start (ctx, state) evs).1.1.live = true ∧
      (run_frag_hooks total_frags start (ctx, state) evs).1.2.total_bytes_estimate
        = state.total_bytes_estimate ∧
      (∀ st ∈ (run_frag_hooks total_frags start (ctx, state) evs).2,
        st.total_bytes_estimate = state.total_bytes_estimate) := by
  induction evs with
  | nil =>
      intro ctx state hl
      exact ⟨hl, rfl, by simp [run_frag_hooks]⟩
  | cons e rest ih =>
      intro ctx state hl
      have h1 := frag_progress_hook_live total_frags start e.1 ctx state e.2 hl
      have h2 := ih (frag_progress_hook total_frags start e.1 (ctx, state) e.2).1.1
        (frag_progress_hook total_frags start e.1 (ctx, state) e.2).1.2 h1.1
      refine ⟨h2.1, ?_, ?_⟩
      · have hfst : (run_frag_hooks total_frags start (ctx, state)
            (e :: rest)).1.2.total_bytes_estimate
          = (run_frag_hooks total_frags start
              (frag_progress_hook total_frags start e.1 (ctx, state) e.2).1
              rest).1.2.total_bytes_estimate := rfl
        rw [hfst]
        exact h2.2.1.trans h1.2
      · intro st hst
        have hm : st ∈ (match (frag_progress_hook total_frags start e.1
              (ctx, state) e.2).2 with
            | none => [] | some st' => [st']) ++
            (run_frag_hooks total_frags start
              (frag_progress_hook total_frags start e.1 (ctx, state) e.2).1 rest).2 := hst
        rcases List.mem_append.mp hm with hm1 | hm1
        · rcases hemit : (frag_progress_hook total_frags start e.1 (ctx, state) e.2).2
            with _ | st'
          · rw [hemit] at hm1
            simp at hm1
          · rw [hemit] at hm1
            simp at hm1
            by_cases ho : e.2.status = EvStatus.other
            · have hnone : (frag_progress_hook total_frags start e.1
                  (ctx, state) e.2).2 = none := by
                simp [frag_progress_hook, ho]
              rw [hnone] at hemit
              cases hemit
            · have he := frag_progress_hook_emits total_frags start e.1 ctx state e.2 ho
              rw [he] at hemit
              have hst' : st' = (frag_progress_hook total_frags start e.1
                  (ctx, state) e.2).1.2 := (Option.some.inj hemit).symm
              rw [hm1, hst']
              exact h1.2
        · exact (h2.2.2 st hm1).trans h1.2

lemma frag_progress_hook_not_finished (total_frags start now : ℚ) (ctx : HookCtx)
    (state : HookState) (s : ProgressEvent) (hs : s.status ≠ EvStatus.finished) :
    (frag_progress_hook total_frags start now (ctx, state) s).1.2.downloaded_bytes
        - (frag_progress_hook total_frags start now
            (ctx, state) s).1.1.prev_frag_downloaded_bytes
      = state.downloaded_bytes - ctx.prev_frag_downloaded_bytes ∧
    (frag_progress_hook total_frags start now (ctx, state) s).1.2.fragment_index
      = state.fragment_index := by
  cases hst : s.status with
  | finished => exact absurd hst hs
  | other => simp [frag_progress_hook, hst]
  | downloading =>
      by_cases hl : ctx.live <;>
        simp [frag_progress_hook, hst, hl] <;> ring

lemma run_frag_hooks_not_finished (total_frags start : ℚ)
    (evs : List (ℚ × ProgressEvent))
    (hevs : ∀ e ∈ evs, e.2.status ≠ EvStatus.finished) :
    ∀ cs : HookCtx × HookState,
      (run_frag_hooks total_frags start cs evs).1.2.downloaded_bytes
          - (run_frag_hooks total_frags start cs evs).1.1.prev_frag_downloaded_bytes
        = cs.2.downloaded_bytes - cs.1.prev_frag_downloaded_bytes ∧
      (run_frag_hooks total_frags start cs evs).1.2.fragment_index
        = cs.2.fragment_index := by
  induction evs with
  | nil => intro cs; exact ⟨rfl, rfl⟩
  | cons e rest ih =>
      intro cs
      have h1 := frag_progress_hook_not_finished total_frags start e.1 cs.1 cs.2 e.2
        (hevs e (List.mem_cons_self _ _))
      have h2 := ih (fun x hx => hevs x (List.mem_cons_of_mem _ hx))
        (frag_progress_hook total_frags start e.1 cs e.2).1
      have hfst : (run_frag_hooks total_frags start cs (e :: rest)).1
          = (run_frag_hooks total_frags start
              (frag_progress_hook total_frags start e.1 cs e.2).1 rest).1 := rfl
      rw [hfst, h2.1, h2.2]
      exact ⟨h1.1, h1.2⟩

lemma frag_progress_hook_finished (total_frags start now : ℚ) (ctx : HookCtx)
    (state : HookState) (s : ProgressEvent) (hs : s.status = EvStatus.finished) :
    (frag_progress_hook total_frags start now (ctx, state) s).1.2.downloaded_bytes
      = state.downloaded_bytes + s.total_bytes.getD 0 - ctx.prev_frag_downloaded_bytes ∧
    (frag_progress_hook total_frags start now (ctx, state) s).1.2.fragment_index
      = state.fragment_index + 1 ∧
    (frag_progress_hook total_frags start now
        (ctx, state) s).1.1.prev_frag_downloaded_bytes = 0 ∧
    (frag_progress_hook total_frags start now (ctx, state) s).1.1.fragment_index
      = state.fragment_index + 1 ∧
    (frag_progress_hook total_frags start now
        (ctx, state) s).1.1.complete_frags_downloaded_bytes
      = (frag_progress_hook total_frags start now (ctx, state) s).1.2.downloaded_bytes := by
  by_cases hl : ctx.live <;>
    simp [frag_progress_hook, hs, hl, pyOr_some_zero_getD]

/-- C4: on every `'downloading'` or `'finished'` event of a non-live session,
`frag_progress_hook` reports a snapshot whose total-size estimate is
`(complete_frags_downloaded_bytes + fragment total bytes) /
(fragment_index + 1) * total_frags`; for a live session folding the hook over
any event sequence from a state with no estimate never sets one — neither the
final state nor any reported snapshot carries a total-size estimate. -/
theorem c4_total_size_estimate (total_frags start now : ℚ) (ctx : HookCtx)
    (state : HookState) (s : ProgressEvent) (evs : List (ℚ × ProgressEvent))
    (hs : s.status ≠ EvStatus.other) :
    (ctx.live = false →
      ∃ st : HookState,
        (frag_progress_hook total_frags start now (ctx, state) s).2 = some st ∧
        st.total_bytes_estimate
          = some ((ctx.complete_frags_downloaded_bytes + s.total_bytes.getD 0) /
              ((state.fragment_index : ℚ) + 1) * total_frags)) ∧
    (ctx.live = true → state.total_bytes_estimate = none →
      (run_frag_hooks total_frags start (ctx, state) evs).1.2.total_bytes_estimate
        = none ∧
      ∀ st ∈ (run_frag_hooks total_frags start (ctx, state) evs).2,
        st.total_bytes_estimate = none) := by
  constructor
  · intro hl
    refine ⟨_, frag_progress_hook_emits total_frags start now ctx state s hs, ?_⟩
    cases hst : s.status with
    | other => exact absurd hst hs
    | downloading => simp [frag_progress_hook, hst, hl, pyOr_some_zero_getD]
    | finished => simp [frag_progress_hook, hst, hl, pyOr_some_zero_getD]
  · intro hl hnone
    have h := run_frag_hooks_live total_frags start evs ctx state hl
    rw [hnone] at h
    exact ⟨h.2.1, h.2.2⟩

/-- C4 (witness): a non-live session with 4 fragments, 200 bytes of complete
fragments, at fragment index 1, receiving a downloading event for a 100-byte
fragment. -/
theorem c4_total_size_estimate_witness :
    ((ProgressEvent.mk EvStatus.downloading 50 (some 100) none).status
        ≠ EvStatus.other) ∧
    (((HookCtx.mk false 200 1 0 none).live = false →
      ∃ st : HookState,
        (frag_progress_hook 4 0 1
          (HookCtx.mk false 200 1 0 none,
           start_frag_download_state "out.mp4" "out.mp4.part" 200 1 (some 4))
          (ProgressEvent.mk EvStatus.downloading 50 (some 100) none)).2 = some st ∧
        st.total_bytes_estimate
          = some (((HookCtx.mk false 200 1 0 none).complete_frags_downloaded_bytes
                + (ProgressEvent.mk EvStatus.downloading 50 (some 100) none).total_bytes.getD 0) /
              (((start_frag_download_state "out.mp4" "out.mp4.part" 200 1
                  (some 4)).fragment_index : ℚ) + 1) * 4)) ∧
     ((HookCtx.mk false 200 1 0 none).live = true →
      (start_frag_download_state "out.mp4" "out.mp4.part" 200 1
          (some 4)).total_bytes_estimate = none →
      (run_frag_hooks 4 0
          (HookCtx.mk false 200 1 0 none,
           start_frag_download_state "out.mp4" "out.mp4.part" 200 1 (some 4))
          []).1.2.total_bytes_estimate = none ∧
      ∀ st ∈ (run_frag_hooks 4 0
          (HookCtx.mk false 200 1 0 none,
           start_frag_download_state "out.mp4" "out.mp4.part" 200 1 (some 4))
          []).2, st.total_bytes_estimate = none)) :=
  ⟨by decide,
   c4_total_size_estimate 4 0 1 (HookCtx.mk false 200 1 0 none)
     (start_frag_download_state "out.mp4" "out.mp4.part" 200 1 (some 4))
     (ProgressEvent.mk EvStatus.downloading 50 (some 100) none) [] (by decide)⟩

/-- C5: a `'finished'` event folds the fragment's bytes into the cumulative
counter exactly once — the counter increases by the fragment's final total
bytes minus the in-flight bytes already counted (`prev_frag_downloaded_bytes`),
the fragment index advances by one and the per-fragment tracker resets to 0 —
so that, starting from a reset tracker, any interleaving of in-flight
`'downloading'` events followed by the `'finished'` event grows the cumulative
counter by exactly the fragment's total bytes. -/
theorem c5_no_double_count (total_frags start now : ℚ) (ctx : HookCtx)
    (state : HookState) (evs : List (ℚ × ProgressEvent)) (fin : ProgressEvent)
    (hprev : ctx.prev_frag_downloaded_bytes = 0)
    (hevs : ∀ e ∈ evs, e.2.status = EvStatus.downloading)
    (hfin : fin.status = EvStatus.finished) :
    (∀ (c : HookCtx) (st : HookState),
      (frag_progress_hook total_frags start now (c, st) fin).1.2.downloaded_bytes
        = st.downloaded_bytes + fin.total_bytes.getD 0 - c.prev_frag_downloaded_bytes ∧
      (frag_progress_hook total_frags start now (c, st) fin).1.2.fragment_index
        = st.fragment_index + 1 ∧
      (frag_progress_hook total_frags start now (c, st) fin).1.1.prev_frag_downloaded_bytes
        = 0) ∧
    (run_frag_hooks total_frags start (ctx, state)
        (evs ++ [(now, fin)])).1.2.downloaded_bytes
      = state.downloaded_bytes + fin.total_bytes.getD 0 ∧
    (run_frag_hooks total_frags start (ctx, state)
        (evs ++ [(now, fin)])).1.2.fragment_index
      = state.fragment_index + 1 ∧
    (run_frag_hooks total_frags start (ctx, state)
        (evs ++ [(now, fin)])).1.1.prev_frag_downloaded_bytes = 0 ∧
    (run_frag_hooks total_frags start (ctx, state)
        (evs ++ [(now, fin)])).1.1.complete_frags_downloaded_bytes
      = state.downloaded_bytes + fin.total_bytes.getD 0 := by
  have hstep : ∀ (c : HookCtx) (st : HookState),
      (frag_progress_hook total_frags start now (c, st) fin).1.2.downloaded_bytes
        = st.downloaded_bytes + fin.total_bytes.getD 0 - c.prev_frag_downloaded_bytes ∧
      (frag_progress_hook total_frags start now (c, st) fin).1.2.fragment_index
        = st.fragment_index + 1 ∧
      (frag_progress_hook total_frags start now (c, st) fin).1.1.prev_frag_downloaded_bytes
        = 0 := by
    intro c st
    have h := frag_progress_hook_finished total_frags start now c st fin hfin
    exact ⟨h.1, h.2.1, h.2.2.1⟩
  refine ⟨hstep, ?_⟩
  have happ : (run_frag_hooks total_frags start (ctx, state) (evs ++ [(now, fin)])).1
      = (run_frag_hooks total_frags start
          (run_frag_hooks total_frags start (ctx, state) evs).1 [(now, fin)]).1 := by
    clear hstep hevs hprev
    induction evs generalizing ctx state with
    | nil => rfl
    | cons e rest ih =>
        have h1 : (run_frag_hooks total_frags start (ctx, state)
            ((e :: rest) ++ [(now, fin)])).1
          = (run_frag_hooks total_frags start
              (frag_progress_hook total_frags start e.1 (ctx, state) e.2).1
              (rest ++ [(now, fin)])).1 := rfl
        rw [h1,
          ih (frag_progress_hook total_frags start e.1 (ctx, state) e.2).1.1
            (frag_progress_hook total_frags start e.1 (ctx, state) e.2).1.2]
        rfl
  have hmid := run_frag_hooks_not_finished total_frags start evs
    (fun e he => by rw [hevs e he]; intro hc; cases hc) (ctx, state)
  rw [hprev] at hmid
  have hone : (run_frag_hooks total_frags start
      (run_frag_hooks total_frags start (ctx, state) evs).1 [(now, fin)]).1
    = (frag_progress_hook total_frags start now
        (run_frag_hooks total_frags start (ctx, state) evs).1 fin).1 := rfl
  have hfinstep := frag_progress_hook_finished total_frags start now
    (run_frag_hooks total_frags start (ctx, state) evs).1.1
    (run_frag_hooks total_frags start (ctx, state) evs).1.2 fin hfin
  rw [happ, hone]
  refine ⟨?_, ?_, hfinstep.2.2.1, ?_⟩
  · rw [hfinstep.1]
    have := hmid.1
    linarith
  · rw [hfinstep.2.1, hmid.2]
  · rw [hfinstep.2.2.2.2, hfinstep.1]
    have := hmid.1
    linarith

/-- C5 (witness): a 100-byte fragment reported through two in-flight events
(30 then 70 bytes) and a finished event folds exactly 100 bytes into the
counter, from an initial cumulative count of 0. -/
theorem c5_no_double_count_witness :
    (HookCtx.mk false 0 0 0 none).prev_frag_downloaded_bytes = 0 ∧
    (∀ e ∈ [((1 : ℚ), ProgressEvent.mk EvStatus.downloading 30 (some 100) none),
            ((2 : ℚ), ProgressEvent.mk EvStatus.downloading 70 (some 100) none)],
      e.2.status = EvStatus.downloading) ∧
    (ProgressEvent.mk EvStatus.finished 100 (some 100) none).status
      = EvStatus.finished ∧
    ((∀ (c : HookCtx) (st : HookState),
      (frag_progress_hook 5 0 3 (c, st)
          (ProgressEvent.mk EvStatus.finished 100 (some 100) none)).1.2.downloaded_bytes
        = st.downloaded_bytes
            + (ProgressEvent.mk EvStatus.finished 100 (some 100) none).total_bytes.getD 0
            - c.prev_frag_downloaded_bytes ∧
      (frag_progress_hook 5 0 3 (c, st)
          (ProgressEvent.mk EvStatus.finished 100 (some 100) none)).1.2.fragment_index
        = st.fragment_index + 1 ∧
      (frag_progress_hook 5 0 3 (c, st)
          (ProgressEvent.mk EvStatus.finished 100 (some 100) none)).1.1.prev_frag_downloaded_bytes
        = 0) ∧
    (run_frag_hooks 5 0
        (HookCtx.mk false 0 0 0 none,
         start_frag_download_state "out.mp4" "out.mp4.part" 0 0 (some 5))
        ([((1 : ℚ), ProgressEvent.mk EvStatus.downloading 30 (some 100) none),
          ((2 : ℚ), ProgressEvent.mk EvStatus.downloading 70 (some 100) none)]
          ++ [((3 : ℚ), ProgressEvent.mk EvStatus.finished 100 (some 100) none)])).1.2.downloaded_bytes
      = (start_frag_download_state "out.mp4" "out.mp4.part" 0 0 (some 5)).downloaded_bytes
          + (ProgressEvent.mk EvStatus.finished 100 (some 100) none).total_bytes.getD 0 ∧
    (run_frag_hooks 5 0
        (HookCtx.mk false 0 0 0 none,
         start_frag_download_state "out.mp4" "out.mp4.part" 0 0 (some 5))
        ([((1 : ℚ), ProgressEvent.mk EvStatus.downloading 30 (some 100) none),
          ((2 : ℚ), ProgressEvent.mk EvStatus.downloading 70 (some 100) none)]
          ++ [((3 : ℚ), ProgressEvent.mk EvStatus.finished 100 (some 100) none)])).1.2.fragment_index
      = (start_frag_download_state "out.mp4" "out.mp4.part" 0 0 (some 5)).fragment_index + 1 ∧
    (run_frag_hooks 5 0
        (HookCtx.mk false 0 0 0 none,
         start_frag_download_state "out.mp4" "out.mp4.part" 0 0 (some 5))
        ([((1 : ℚ), ProgressEvent.mk EvStatus.downloading 30 (some 100) none),
          ((2 : ℚ), ProgressEvent.mk EvStatus.downloading 70 (some 100) none)]
          ++ [((3 : ℚ), ProgressEvent.mk EvStatus.finished 100 (some 100) none)])).1.1.prev_frag_downloaded_bytes
      = 0 ∧
    (run_frag_hooks 5 0
        (HookCtx.mk false 0 0 0 none,
         start_frag_download_state "out.mp4" "out.mp4.part" 0 0 (some 5))
        ([((1 : ℚ), ProgressEvent.mk EvStatus.downloading 30 (some 100) none),
          ((2 : ℚ), ProgressEvent.mk EvStatus.downloading 70 (some 100) none)]
          ++ [((3 : ℚ), ProgressEvent.mk EvStatus.finished 100 (some 100) none)])).1.1.complete_frags_downloaded_bytes
      = (start_frag_download_state "out.mp4" "out.mp4.part" 0 0 (some 5)).downloaded_bytes
          + (ProgressEvent.mk EvStatus.finished 100 (some 100) none).total_bytes.getD 0) :=
  ⟨rfl, by decide, rfl,
   c5_no_double_count 5 0 3 (HookCtx.mk false 0 0 0 none)
     (start_frag_download_state "out.mp4" "out.mp4.part" 0 0 (some 5))
     [((1 : ℚ), ProgressEvent.mk EvStatus.downloading 30 (some 100) none),
      ((2 : ℚ), ProgressEvent.mk EvStatus.downloading 70 (some 100) none)]
     (ProgressEvent.mk EvStatus.finished 100 (some 100) none)
     rfl (by decide) rfl⟩

end FragmentFD
